import Mathlib

/-!
Verification of the core of `rlm_totp_code.c` (FreeRADIUS TOTP code module):
a shallow embedding of the Base32 validator/decoder, the TOTP calculator
(with HMAC-SHA1 modelled as the external primitive the module links against),
and the replay cache (red-black tree + doubly linked expiry list), together
with theorems about the specified behaviour.

Modelling conventions:
* C byte strings are `List Nat` with each element in `0..255`.
* Machine integers are `Nat`/`Int` with explicit reductions modulo `2^64`
  (`u64ofInt`) or `2^32` (`u32`) where the C types wrap.
* Operations that are undefined behaviour in C (an out-of-bounds table index,
  a division by zero) are made explicit by dedicated result constructors
  (`VerifyResult.oobRead`, `CalcResult.divByZero`) so that reaching them is
  observable instead of being silently totalised.
-/

set_option maxRecDepth 100000

namespace RlmTotp

/-- `#define RLM_TOTP_CODE_EBASE32 -1` / `EBUFSIZ -2` are modelled by dedicated
result constructors below rather than by negative sentinel integers. -/
def U64 : Nat := 18446744073709551616

/-- Reduce a mathematical integer to the `uint64_t` value it converts to in C
(conversion is reduction modulo `2^64`). -/
def u64ofInt (i : Int) : Nat := (i % (U64 : Int)).toNat

/-- Reinterpret a `uint64_t` value as the C `time_t`/`int64_t` it converts to
(two's complement). -/
def i64ofU64 (n : Nat) : Int :=
  if n < 9223372036854775808 then (n : Int) else (n : Int) - (U64 : Int)

/-- The 256-entry `base32_map` table from the source.  The table cheats and
interprets the numeral zero as `O`, one as `L` and eight as `B`; `=` maps
to `0` so that padding passes the character check.  Note the entry for
`0x7B` (the character `{`), which is `26` in the source. -/
def base32_map : List Int :=
  [ -1, -1, -1, -1, -1, -1, -1, -1, -1, -1, -1, -1, -1, -1, -1, -1,  -- 0x00
    -1, -1, -1, -1, -1, -1, -1, -1, -1, -1, -1, -1, -1, -1, -1, -1,  -- 0x10
    -1, -1, -1, -1, -1, -1, -1, -1, -1, -1, -1, -1, -1, -1, -1, -1,  -- 0x20
    14, 11, 26, 27, 28, 29, 30, 31,  1, -1, -1, -1, -1,  0, -1, -1,  -- 0x30
    -1,  0,  1,  2,  3,  4,  5,  6,  7,  8,  9, 10, 11, 12, 13, 14,  -- 0x40
    15, 16, 17, 18, 19, 20, 21, 22, 23, 24, 25, -1, -1, -1, -1, -1,  -- 0x50
    -1,  0,  1,  2,  3,  4,  5,  6,  7,  8,  9, 10, 11, 12, 13, 14,  -- 0x60
    15, 16, 17, 18, 19, 20, 21, 22, 23, 24, 25, 26, -1, -1, -1, -1,  -- 0x70
    -1, -1, -1, -1, -1, -1, -1, -1, -1, -1, -1, -1, -1, -1, -1, -1,  -- 0x80
    -1, -1, -1, -1, -1, -1, -1, -1, -1, -1, -1, -1, -1, -1, -1, -1,  -- 0x90
    -1, -1, -1, -1, -1, -1, -1, -1, -1, -1, -1, -1, -1, -1, -1, -1,  -- 0xA0
    -1, -1, -1, -1, -1, -1, -1, -1, -1, -1, -1, -1, -1, -1, -1, -1,  -- 0xB0
    -1, -1, -1, -1, -1, -1, -1, -1, -1, -1, -1, -1, -1, -1, -1, -1,  -- 0xC0
    -1, -1, -1, -1, -1, -1, -1, -1, -1, -1, -1, -1, -1, -1, -1, -1,  -- 0xD0
    -1, -1, -1, -1, -1, -1, -1, -1, -1, -1, -1, -1, -1, -1, -1, -1,  -- 0xE0
    -1, -1, -1, -1, -1, -1, -1, -1, -1, -1, -1, -1, -1, -1, -1, -1 ] -- 0xF0

/-- The value of the C expression `(int8_t)src[pos]`: a byte `0..255`
reinterpreted as a signed 8-bit integer. -/
def sint8 (c : Nat) : Int := if c < 128 then (c : Int) else (c : Int) - 256

/-- Totalised array subscript into `base32_map`: `none` models an
out-of-bounds index (undefined behaviour in C). -/
def b32get (i : Int) : Option Int :=
  if 0 ≤ i ∧ i < 256 then some (base32_map.getD i.toNat 0) else none

/-- Result of `totp_base32_verify`: the returned length, the
`RLM_TOTP_CODE_EBASE32` error, or an out-of-bounds read of `base32_map`
(undefined behaviour, reached for input bytes `≥ 0x80` because the source
indexes the table with `(int8_t)src[pos]`). -/
inductive VerifyResult where
  | ok (n : Nat)
  | ebase32
  | oobRead
deriving DecidableEq

/-- Outcome of the scanning loop of `totp_base32_verify` up to the first `=`:
either the loop ran off the end (`clean`, carrying the final `pos`), or the
first `=` was found at absolute position `p` with `rest` the characters after
it, or an invalid character / out-of-bounds table read occurred. -/
inductive ScanRes where
  | clean (pos : Nat)
  | padAt (p : Nat) (rest : List Nat)
  | bad
  | oob
deriving DecidableEq

/-- The character-scanning loop of `totp_base32_verify`: checks
`base32_map[(int8_t)src[pos]] == -1` for each position and stops at the
first `=`. -/
def scanData : List Nat → Nat → ScanRes
  | [], pos => .clean pos
  | c :: rest, pos =>
    match b32get (sint8 c) with
    | none => .oob
    | some v =>
      if v = -1 then .bad
      else if c = 61 then .padAt pos rest
      else scanData rest (pos + 1)

/-- The `switch(datlen % 8)` length check of `totp_base32_verify`:
residues 0, 2, 4, 5, 7 are accepted. -/
def residueB (n : Nat) : Bool :=
  (n % 8 == 0) || (n % 8 == 2) || (n % 8 == 4) || (n % 8 == 5) || (n % 8 == 7)

/-- Embedding of `totp_base32_verify(src, srclen)`.  After the scan, the
padding checks (`pos % 8 < 2`, block completion, trailing run all `=`) and
the `datlen % 8` switch follow the source; on success the function returns
`(datlen * 5) / 8`. -/
def totp_base32_verify (s : List Nat) : VerifyResult :=
  match scanData s 0 with
  | .oob => .oobRead
  | .bad => .ebase32
  | .clean pos => if residueB pos then .ok (pos * 5 / 8) else .ebase32
  | .padAt p rest =>
    if p % 8 < 2 then .ebase32
    else if p + (8 - p % 8) ≠ s.length then .ebase32
    else if rest.all (fun c => c == 61) then
      (if residueB p then .ok (p * 5 / 8) else .ebase32)
    else .ebase32

/-- The table lookup of `totp_base32_decode`: `base32_map[(uint8_t)src[i]]`
(the decoder, unlike the verifier, casts through `uint8_t`, so the index is
always in bounds). -/
def dmap (s : List Nat) (i : Nat) : Int := base32_map.getD ((s.getD i 0) % 256) 0

/-- Output byte for `case 1` of the decode loop: 5 MSB from the previous
symbol, 3 LSB from the current one. -/
def byte1 (s : List Nat) (pos : Nat) : Nat :=
  (Int.lor (Int.land (dmap s (pos-1) <<< (3:Int)) 0xF8)
           (Int.land (dmap s pos >>> (2:Int)) 0x07)).toNat

/-- Output byte for `case 3`: 2 MSB, 5 middle bits, 1 LSB. -/
def byte3 (s : List Nat) (pos : Nat) : Nat :=
  (Int.lor (Int.lor (Int.land (dmap s (pos-2) <<< (6:Int)) 0xC0)
                    (Int.land (dmap s (pos-1) <<< (1:Int)) 0x3E))
           (Int.land (dmap s pos >>> (4:Int)) 0x01)).toNat

/-- Output byte for `case 4`: 4 MSB, 4 LSB. -/
def byte4 (s : List Nat) (pos : Nat) : Nat :=
  (Int.lor (Int.land (dmap s (pos-1) <<< (4:Int)) 0xF0)
           (Int.land (dmap s pos >>> (1:Int)) 0x0F)).toNat

/-- Output byte for `case 6`: 1 MSB, 5 middle bits, 2 LSB. -/
def byte6 (s : List Nat) (pos : Nat) : Nat :=
  (Int.lor (Int.lor (Int.land (dmap s (pos-2) <<< (7:Int)) 0x80)
                    (Int.land (dmap s (pos-1) <<< (2:Int)) 0x7C))
           (Int.land (dmap s pos >>> (3:Int)) 0x03)).toNat

/-- Output byte for `case 7`: 3 MSB, 5 LSB. -/
def byte7 (s : List Nat) (pos : Nat) : Nat :=
  (Int.lor (Int.land (dmap s (pos-1) <<< (5:Int)) 0xE0)
           (Int.land (dmap s pos >>> (0:Int)) 0x1F)).toNat

/-- The decoding loop of `totp_base32_decode`: one iteration per input
position, switching on `pos % 8`; cases 2, 4, 5, 7 and the default case
return early (with the bytes produced so far) on a `=`.  The first argument
after `s` is the number of remaining iterations (`srclen - pos`). -/
def decodeLoop (s : List Nat) : Nat → Nat → List Nat → List Nat
  | 0, _, out => out
  | r+1, pos, out =>
    if pos % 8 = 1 then decodeLoop s r (pos+1) (out ++ [byte1 s pos])
    else if pos % 8 = 2 then
      (if s.getD pos 0 = 61 then out else decodeLoop s r (pos+1) out)
    else if pos % 8 = 3 then decodeLoop s r (pos+1) (out ++ [byte3 s pos])
    else if pos % 8 = 4 then
      (if s.getD pos 0 = 61 then out else decodeLoop s r (pos+1) (out ++ [byte4 s pos]))
    else if pos % 8 = 5 then
      (if s.getD pos 0 = 61 then out else decodeLoop s r (pos+1) out)
    else if pos % 8 = 6 then decodeLoop s r (pos+1) (out ++ [byte6 s pos])
    else if pos % 8 = 7 then
      (if s.getD pos 0 = 61 then out else decodeLoop s r (pos+1) (out ++ [byte7 s pos]))
    else
      (if s.getD pos 0 = 61 then out else decodeLoop s r (pos+1) out)

/-- Result of `totp_base32_decode`: the written bytes, or one of the two
error codes, or the out-of-bounds read inherited from `totp_base32_verify`. -/
inductive DecodeResult where
  | ok (out : List Nat)
  | ebase32
  | ebufsiz
  | oobRead
deriving DecidableEq

/-- Embedding of `totp_base32_decode(dst, dstlen, src, srclen)` with a
non-null destination: re-validates via `totp_base32_verify`, fails with
`RLM_TOTP_CODE_EBUFSIZ` if the verified length exceeds `dstlen`, then runs
the decode loop over all positions. -/
def totp_base32_decode (dstlen : Nat) (s : List Nat) : DecodeResult :=
  match totp_base32_verify s with
  | .oobRead => .oobRead
  | .ebase32 => .ebase32
  | .ok rc => if dstlen < rc then .ebufsiz else .ok (decodeLoop s s.length 0 [])

/-- Number of written bytes of a decode result, if it succeeded. -/
def DecodeResult.outLength : DecodeResult → Option Nat
  | .ok out => some out.length
  | _ => none

-- ------------------------------------------------------------------
-- SHA-1 and HMAC-SHA1: the external cryptographic primitive
-- (`fr_hmac_sha1` / OpenSSL `HMAC(EVP_sha1(), ...)`) that `totp_hmac`
-- dispatches to.  Implemented from FIPS 180-1 / RFC 2104, which is what
-- the module's spec assumes of the linked primitive library.
-- ------------------------------------------------------------------

/-- Reduction modulo `2^32` (the SHA-1 word size). -/
def u32 (n : Nat) : Nat := n % 4294967296

/-- Rotate a 32-bit word left by `k`. -/
def rotl (x k : Nat) : Nat := u32 (x <<< k) ||| (x >>> (32 - k))

/-- Big-endian 32-bit word from four bytes. -/
def be32 (b0 b1 b2 b3 : Nat) : Nat := (b0 <<< 24) ||| (b1 <<< 16) ||| (b2 <<< 8) ||| b3

/-- Split a 64-byte chunk into sixteen big-endian words. -/
def chunkWords : List Nat → List Nat
  | b0 :: b1 :: b2 :: b3 :: rest => be32 b0 b1 b2 b3 :: chunkWords rest
  | _ => []

/-- Message-schedule extension; the accumulator holds the words produced so
far in reverse order, so `w[i-3]`, `w[i-8]`, `w[i-14]`, `w[i-16]` are at
reversed indices 2, 7, 13, 15. -/
def wext : Nat → List Nat → List Nat
  | 0, rws => rws
  | f+1, rws =>
    wext f (rotl ((rws.getD 2 0) ^^^ (rws.getD 7 0) ^^^ (rws.getD 13 0) ^^^ (rws.getD 15 0)) 1
              :: rws)

/-- SHA-1 round function, by round index. -/
def sha1F (i b c d : Nat) : Nat :=
  if i < 20 then (b &&& c) ||| ((b ^^^ 4294967295) &&& d)
  else if i < 40 then b ^^^ c ^^^ d
  else if i < 60 then (b &&& c) ||| (b &&& d) ||| (c &&& d)
  else b ^^^ c ^^^ d

/-- SHA-1 round constants, by round index. -/
def sha1K (i : Nat) : Nat :=
  if i < 20 then 0x5A827999
  else if i < 40 then 0x6ED9EBA1
  else if i < 60 then 0x8F1BBCDC
  else 0xCA62C1D6

/-- The 80 SHA-1 rounds over one chunk's schedule. -/
def sha1Rounds : Nat → List Nat → Nat × Nat × Nat × Nat × Nat → Nat × Nat × Nat × Nat × Nat
  | _, [], st => st
  | i, w :: ws, (a, b, c, d, e) =>
    sha1Rounds (i+1) ws
      (u32 (rotl a 5 + sha1F i b c d + e + sha1K i + w), a, rotl b 30, c, d)

/-- One SHA-1 compression step on a 64-byte chunk. -/
def sha1Compress (h : Nat × Nat × Nat × Nat × Nat) (chunk : List Nat) :
    Nat × Nat × Nat × Nat × Nat :=
  let ws := (wext 64 (chunkWords chunk).reverse).reverse
  let (a, b, c, d, e) := sha1Rounds 0 ws h
  let (h0, h1, h2, h3, h4) := h
  (u32 (h0 + a), u32 (h1 + b), u32 (h2 + c), u32 (h3 + d), u32 (h4 + e))

/-- Big-endian 8-byte serialisation of a 64-bit value. -/
def beBytes8 (n : Nat) : List Nat :=
  [ (n >>> 56) &&& 255, (n >>> 48) &&& 255, (n >>> 40) &&& 255, (n >>> 32) &&& 255,
    (n >>> 24) &&& 255, (n >>> 16) &&& 255, (n >>> 8) &&& 255, n &&& 255 ]

/-- Big-endian 4-byte serialisation of a 32-bit word. -/
def beBytes4 (n : Nat) : List Nat :=
  [ (n >>> 24) &&& 255, (n >>> 16) &&& 255, (n >>> 8) &&& 255, n &&& 255 ]

/-- FIPS 180-1 padding: `0x80`, zeros to 56 mod 64, then the bit length. -/
def sha1Pad (msg : List Nat) : List Nat :=
  msg ++ 128 :: (List.replicate ((119 - (msg.length % 64)) % 64) 0 ++ beBytes8 (8 * msg.length))

/-- Iterate the compression function over all 64-byte chunks (the first
argument is fuel, instantiated with the padded length). -/
def sha1Blocks : Nat → Nat × Nat × Nat × Nat × Nat → List Nat → Nat × Nat × Nat × Nat × Nat
  | 0, st, _ => st
  | f+1, st, msg =>
    match msg with
    | [] => st
    | _ => sha1Blocks f (sha1Compress st (msg.take 64)) (msg.drop 64)

/-- SHA-1 of a byte sequence, as its 20-byte digest. -/
def sha1 (msg : List Nat) : List Nat :=
  let p := sha1Pad msg
  let (h0, h1, h2, h3, h4) :=
    sha1Blocks p.length (0x67452301, 0xEFCDAB89, 0x98BADCFE, 0x10325476, 0xC3D2E1F0) p
  beBytes4 h0 ++ beBytes4 h1 ++ beBytes4 h2 ++ beBytes4 h3 ++ beBytes4 h4

/-- HMAC-SHA1 (RFC 2104) with a 64-byte block size. -/
def hmac_sha1 (key msg : List Nat) : List Nat :=
  let k0 := if 64 < key.length then sha1 key else key
  let kp := k0 ++ List.replicate (64 - k0.length) 0
  sha1 ((kp.map (fun b => b ^^^ 0x5c)) ++ sha1 ((kp.map (fun b => b ^^^ 0x36)) ++ msg))

-- ------------------------------------------------------------------
-- The TOTP calculator: `totp_params_t` and `totp_calculate`
-- ------------------------------------------------------------------

/-- The fields of `struct _totp_params` that `totp_calculate` reads
(`totp_t` is an output recomputed by the function, `otp` is the output
string).  `totp_t0`, `totp_x`, `totp_cur_unix` are `uint64_t`,
`totp_time_offset` is `int64_t`. -/
structure TotpParams where
  totp_t0 : Nat
  totp_x : Nat
  totp_cur_unix : Nat
  totp_time_offset : Int
  totp_algo : Nat
  otp_length : Nat
  key : List Nat
deriving DecidableEq

/-- Result of `totp_calculate`: `err` is the C return value `-1` (domain
error or unavailable hash), `divByZero` marks the division or modulo by
zero that the C source performs unguarded (undefined behaviour), and `ok`
carries the returned code, the formatted `params->otp` string, and the
computed `params->totp_t`. -/
inductive CalcResult where
  | err
  | divByZero
  | ok (otp : Nat) (otpStr : String) (totp_t : Nat)
deriving DecidableEq

/-- Embedding of `totp_hmac` in the `!HAVE_OPENSSL_EVP_H` configuration:
only `RLM_TOTP_HMAC_SHA1` (id 1) is available, anything else leaves
`*digest_lenp == 0`.  The underlying HMAC-SHA1 primitive (`fr_hmac_sha1`)
is external to the module and implemented here from RFC 2104/FIPS 180-1. -/
def totp_hmac (totp_algo : Nat) (data key : List Nat) : List Nat × Nat :=
  if totp_algo = 1 then (hmac_sha1 key data, 20) else (List.replicate 20 0, 0)

/-- Decimal digit characters of `n`, most significant first (the core of
`snprintf("%u", n)`); the first argument is fuel. -/
def decDigitsAux : Nat → Nat → List Char
  | 0, _ => []
  | fuel+1, n =>
    if n < 10 then [Char.ofNat (48 + n)]
    else decDigitsAux fuel (n / 10) ++ [Char.ofNat (48 + n % 10)]

/-- Decimal digits of `n`, most significant first. -/
def decDigits (n : Nat) : List Char := decDigitsAux (n + 1) n

/-- `snprintf(params->otp, sizeof(params->otp), "%0*u", width, otp)`:
decimal rendering of `otp` left-padded with zeros to `width` characters,
truncated to 15 characters by the 16-byte destination buffer. -/
def sprintfOtp (width otp : Nat) : String :=
  String.mk ((List.replicate (width - (decDigits otp).length) '0' ++ decDigits otp).take 15)

/-- Embedding of `totp_calculate(params)`:
1. domain check `totp_t0 > totp_cur_unix + totp_time_offset` (`uint64_t`
   comparison, the right-hand side wraps modulo `2^64`);
2. `totp_t = ((totp_cur_unix - totp_t0) + totp_time_offset) / totp_x`
   computed in `uint64_t` steps — the division is UNGUARDED in the source,
   so `totp_x = 0` reaches undefined behaviour (`divByZero`);
3. big-endian serialisation of `totp_t`, HMAC, RFC 4226 dynamic
   truncation, and reduction modulo `10^otp_length` (the `denominator`
   accumulates in a 32-bit `unsigned`). -/
def totp_calculate (p : TotpParams) : CalcResult :=
  if p.totp_t0 > u64ofInt ((p.totp_cur_unix : Int) + p.totp_time_offset) then .err
  else
    let t1 := u64ofInt ((p.totp_cur_unix : Int) - (p.totp_t0 : Int))
    let t2 := u64ofInt ((t1 : Int) + p.totp_time_offset)
    if p.totp_x = 0 then .divByZero
    else
      let t := t2 / p.totp_x
      let data := beBytes8 t
      let hd := totp_hmac p.totp_algo data p.key
      let digest := hd.1
      let digest_len := hd.2
      if digest_len = 0 then .err
      else
        let off := (digest.getD (digest_len - 1) 0) &&& 0x0f
        let bin_code :=
          (((digest.getD off 0) &&& 0x7f) <<< 24) |||
          (((digest.getD (off+1) 0) &&& 0xff) <<< 16) |||
          (((digest.getD (off+2) 0) &&& 0xff) <<< 8) |||
          ((digest.getD (off+3) 0) &&& 0xff)
        let denominator := (10 ^ (p.otp_length % 4294967296)) % 4294967296
        if denominator = 0 then .divByZero
        else
          let otp := bin_code % denominator
          .ok otp (sprintfOtp p.otp_length otp) t

/-- The ASCII key `"12345678901234567890"` of the RFC 6238 test vectors. -/
def rfcKey : List Nat :=
  [49, 50, 51, 52, 53, 54, 55, 56, 57, 48, 49, 50, 51, 52, 53, 54, 55, 56, 57, 48]

-- ------------------------------------------------------------------
-- The replay cache: `totp_cache_entry_t`, the red-black tree
-- (`inst->cache_tree`), the doubly linked list threaded through the
-- sentinel node `inst->cache_list`, and the operations
-- `totp_cache_entry_unlink`, `totp_cache_cleanup`, `totp_cache_update`.
-- Pointers are modelled as heap addresses (`Nat`), the heap as an
-- association list; the sentinel lives at address 0.
-- ------------------------------------------------------------------

/-- `struct _totp_cache_entry`: identity key, expiry (`time_t`), and the
`prev`/`next` pointers of the doubly linked list (`none` = `NULL`). -/
structure CEntry where
  key : List Nat
  entry_expires : Int
  prev : Option Nat
  next : Option Nat
deriving DecidableEq

/-- The mutable state of one module instance's cache: the heap of allocated
entries, the set of entries linked into the red-black tree (as a list of
addresses), and the next fresh address. -/
structure CacheSt where
  heap : List (Nat × CEntry)
  tree : List Nat
  nextAddr : Nat
deriving DecidableEq

/-- Dereference an entry pointer. -/
def hget (st : CacheSt) (a : Nat) : Option CEntry :=
  (st.heap.find? (fun kv => kv.1 == a)).map (fun kv => kv.2)

/-- Overwrite the entry at address `a`. -/
def hset (st : CacheSt) (a : Nat) (e : CEntry) : CacheSt :=
  { st with heap := st.heap.map (fun kv => if kv.1 == a then (a, e) else kv) }

/-- Free the entry at address `a`. -/
def hremove (st : CacheSt) (a : Nat) : CacheSt :=
  { st with heap := st.heap.filter (fun kv => !(kv.1 == a)) }

/-- The cache state set up by `mod_instantiate`: an empty tree and a
zeroed sentinel node `inst->cache_list` (key empty, expiry 0, both links
`NULL`). -/
def cacheInit : CacheSt := ⟨[(0, ⟨[], 0, none, none⟩)], [], 1⟩

/-- Embedding of `totp_cache_entry_unlink(entry)`, preserving the exact
statement order of the source:
1. `if (entry->prev) entry->prev->next = entry->next;`
2. `entry->prev = NULL;`
3. `if (entry->next) entry->next->prev = entry->prev;`  — note that this
   reads `entry->prev` AFTER step 2 zeroed it;
4. `entry->next = NULL;` -/
def totp_cache_entry_unlink (st : CacheSt) (a : Nat) : CacheSt :=
  match hget st a with
  | none => st
  | some e =>
    let st1 :=
      match e.prev with
      | some p =>
        (match hget st p with
         | some pe => hset st p { pe with next := e.next }
         | none => st)
      | none => st
    let st2 :=
      match hget st1 a with
      | some e1 => hset st1 a { e1 with prev := none }
      | none => st1
    let st3 :=
      match hget st2 a with
      | some e2 =>
        (match e2.next with
         | some nx =>
           (match hget st2 nx with
            | some ne => hset st2 nx { ne with prev := e2.prev }
            | none => st2)
         | none => st2)
      | none => st2
    match hget st3 a with
    | some e3 => hset st3 a { e3 with next := none }
    | none => st3

/-- `rbtree_finddata` driven by `totp_cache_entry_cmp`: the comparator
returns 0 exactly when the two keys are byte-for-byte equal with equal
lengths, so the lookup finds the tree entry whose key equals `k`. -/
def treeFindKey (st : CacheSt) (k : List Nat) : Option Nat :=
  st.tree.find? (fun b =>
    match hget st b with
    | some e => e.key == k
    | none => false)

/-- `totp_cache_entry_free` (the tree's destructor): unlink from the list,
then free. -/
def totp_cache_entry_free (st : CacheSt) (a : Nat) : CacheSt :=
  hremove (totp_cache_entry_unlink st a) a

/-- `rbtree_deletebydata(tree, data)`: look up the tree node comparing
equal to the entry at `a` (comparison is by identity key), remove it from
the tree and destroy it with `totp_cache_entry_free`. -/
def rbtree_deletebydata (st : CacheSt) (a : Nat) : CacheSt :=
  match hget st a with
  | none => st
  | some e =>
    match treeFindKey st e.key with
    | none => st
    | some b =>
      totp_cache_entry_free { st with tree := st.tree.filter (fun x => !(x == b)) } b

/-- The eviction loop of `totp_cache_cleanup`:
`while ((root->next != NULL) && (root->entry_expires < t))` where `root`
is the sentinel `inst->cache_list` — the condition reads the SENTINEL's
own `next` and `entry_expires` fields on every iteration.  The first
argument is fuel (the loop in C is unbounded). -/
def cleanupLoop : Nat → CacheSt → Int → CacheSt
  | 0, st, _ => st
  | f+1, st, t =>
    match hget st 0 with
    | none => st
    | some root =>
      match root.next with
      | none => st
      | some nx =>
        if root.entry_expires < t then cleanupLoop f (rbtree_deletebydata st nx) t
        else st

/-- Embedding of `totp_cache_cleanup(instance, t)` with ample fuel. -/
def totp_cache_cleanup (st : CacheSt) (t : Int) : CacheSt :=
  cleanupLoop (st.tree.length + 1) st t

/-- The tail of `totp_cache_update`: add the entry at `a` to the linked
list at the newest position, following the source exactly:
`if (cache_list->prev) { cache_list->prev->next = entry; entry->prev =
cache_list->prev; }  entry->next = cache_list;  cache_list->prev = entry;` -/
def listAppend (st : CacheSt) (a : Nat) : CacheSt :=
  let st1 :=
    match hget st 0 with
    | some root =>
      (match root.prev with
       | some p =>
         let sta :=
           match hget st p with
           | some pe => hset st p { pe with next := some a }
           | none => st
         (match hget sta a with
          | some e => hset sta a { e with prev := some p }
          | none => sta)
       | none => st)
    | none => st
  let st2 :=
    match hget st1 a with
    | some e => hset st1 a { e with next := some 0 }
    | none => st1
  match hget st2 0 with
  | some root => hset st2 0 { root with prev := some a }
  | none => st2

/-- The `expires` value computed at the top of `totp_cache_update`, after
`expires = cur - t0 + offset; expires /= x; expires--; expires *= x;`
(all in `uint64_t`).  `none` marks the unguarded division by zero. -/
def cacheCutoff (p : TotpParams) : Option Nat :=
  if p.totp_x = 0 then none
  else
    let e0 := u64ofInt ((p.totp_cur_unix : Int) - (p.totp_t0 : Int) + p.totp_time_offset)
    let e1 := e0 / p.totp_x
    let e2 := (e1 + (U64 - 1)) % U64
    some ((e2 * p.totp_x) % U64)

/-- The `uint64_t` value assigned by
`entry->entry_expires = expires + params->totp_x - 1;`. -/
def cacheEntryExpiry (p : TotpParams) : Option Nat :=
  (cacheCutoff p).map (fun expires => (expires + p.totp_x + (U64 - 1)) % U64)

/-- Embedding of `totp_cache_update(instance, request, params)` for a
caller whose identity-key attribute has value `key` and with allocation
assumed to succeed: compute the cutoff, sweep via `totp_cache_cleanup`,
allocate the new entry, then either supersede the entry found by
`rbtree_finddata` (unlink it, refresh its expiry, free the temporary) or
insert the new entry into the tree; finally re-link at the newest list
position.  `none` models the undefined division by zero when
`params->totp_x == 0`. -/
def totp_cache_update (st : CacheSt) (key : List Nat) (p : TotpParams) : Option CacheSt :=
  match cacheCutoff p, cacheEntryExpiry p with
  | some expires, some entryExp =>
    let st := totp_cache_cleanup st (i64ofU64 expires)
    let a := st.nextAddr
    let st : CacheSt :=
      { heap := st.heap ++ [(a, ⟨key, i64ofU64 entryExp, none, none⟩)],
        tree := st.tree, nextAddr := a + 1 }
    some (match treeFindKey st key with
      | some r =>
        let st := totp_cache_entry_unlink st r
        let st :=
          match hget st r with
          | some re => hset st r { re with entry_expires := i64ofU64 entryExp }
          | none => st
        let st := hremove st a
        listAppend st r
      | none =>
        let st : CacheSt := { st with tree := st.tree ++ [a] }
        listAppend st a)
  | _, _ => none

/-- Does the point-lookup tree contain an entry with identity key `k`? -/
def treeHasKey (st : CacheSt) (k : List Nat) : Bool :=
  (treeFindKey st k).isSome

/-- Walk the expiry-ordered list backwards from the sentinel (newest to
oldest, following `prev`), collecting the identity keys; fuel-bounded. -/
def backWalk (st : CacheSt) : Nat → Option Nat → List (List Nat)
  | 0, _ => []
  | _, none => []
  | f+1, some a =>
    if a = 0 then []
    else
      match hget st a with
      | none => []
      | some e => e.key :: backWalk st f e.prev

/-- The identity keys reachable from the sentinel's `prev` pointer (the
newest end of the expiry-ordered list). -/
def backKeys (st : CacheSt) : List (List Nat) :=
  backWalk st (st.heap.length + 1) ((hget st 0).bind (fun root => root.prev))

-- ------------------------------------------------------------------
-- Specification-side predicates for the Base32 validator (from the
-- spec's wording, to be compared with the embedded code).
-- ------------------------------------------------------------------

/-- The character set the spec allows: the 32 symbols `A`–`Z` (case
insensitive) and `2`–`7`, plus the documented aliases `0` (for `O`),
`1` (for `L`) and `8` (for `B`) — i.e. `[A-Za-z2-7018]`. -/
def validB32_claimed (c : Nat) : Bool :=
  (decide (65 ≤ c) && decide (c ≤ 90)) || (decide (97 ≤ c) && decide (c ≤ 122)) ||
  (decide (50 ≤ c) && decide (c ≤ 55)) || (c == 48) || (c == 49) || (c == 56)

/-- The character set the code actually accepts for bytes `< 0x80`: the
claimed set plus `{` (byte `0x7B`), whose `base32_map` entry is `26`. -/
def validB32 (c : Nat) : Bool := validB32_claimed c || (c == 123)

/-- The non-padded prefix of the input (`datlen` characters). -/
def specDat (s : List Nat) : List Nat := s.takeWhile (fun c => !(c == 61))

/-- The input from the first `=` on. -/
def specPad (s : List Nat) : List Nat := s.dropWhile (fun c => !(c == 61))

/-- The spec's padding rule: either no padding, or the pad run consists
only of `=`, starts at a position `p` with `p % 8 ≥ 2`, and completes the
8-character block (`p + (8 - p % 8)` equals the input length). -/
def padShape (s : List Nat) : Bool :=
  (specPad s).isEmpty ||
  ((specPad s).all (fun c => c == 61) && decide (2 ≤ (specDat s).length % 8) &&
   ((specDat s).length + (8 - (specDat s).length % 8) == s.length))

/-- The acceptance condition exactly as the claim states it (claimed
character set, padding rule, `datlen % 8 ∈ {0,2,4,5,7}`). -/
def base32_spec_claimed (s : List Nat) : Bool :=
  (specDat s).all validB32_claimed && padShape s && residueB (specDat s).length

/-- The acceptance condition amended to the code's actual character set
(which additionally contains `{`); bytes `≥ 0x80` never satisfy it. -/
def base32_spec_ok (s : List Nat) : Bool :=
  (specDat s).all validB32 && padShape s && residueB (specDat s).length

/-- The time-step index `T` as the spec defines it for the cache,
computed in `uint64_t` arithmetic:
`T = ((now + offset) - T0) / X` (modulo `2^64`). -/
def time_step_index (p : TotpParams) : Nat :=
  u64ofInt ((p.totp_cur_unix : Int) - (p.totp_t0 : Int) + p.totp_time_offset) / p.totp_x

-- ------------------------------------------------------------------
-- Helper definitions for the Base32 proofs
-- ------------------------------------------------------------------

/-- A byte passes the verifier's character check without undefined
behaviour: it is ASCII and its table entry is not `-1`. -/
def goodChar (c : Nat) : Bool := decide (c < 128) && !(base32_map.getD c 0 == -1)

/-- A byte the scan walks over: passes the check and is not `=`. -/
def dataChar (c : Nat) : Bool := goodChar c && !(c == 61)

/-- Output-byte count of the decode loop, by remaining iterations and
position (mirrors `decodeLoop` byte for byte, dropping the data). -/
def dlLen (s : List Nat) : Nat → Nat → Nat
  | 0, _ => 0
  | r+1, pos =>
    if pos % 8 = 1 then 1 + dlLen s r (pos+1)
    else if pos % 8 = 2 then (if s.getD pos 0 = 61 then 0 else dlLen s r (pos+1))
    else if pos % 8 = 3 then 1 + dlLen s r (pos+1)
    else if pos % 8 = 4 then (if s.getD pos 0 = 61 then 0 else 1 + dlLen s r (pos+1))
    else if pos % 8 = 5 then (if s.getD pos 0 = 61 then 0 else dlLen s r (pos+1))
    else if pos % 8 = 6 then 1 + dlLen s r (pos+1)
    else if pos % 8 = 7 then (if s.getD pos 0 = 61 then 0 else 1 + dlLen s r (pos+1))
    else (if s.getD pos 0 = 61 then 0 else dlLen s r (pos+1))

/-- Number of output bytes the decode loop produces per in-block offset
below `r` (offsets 1, 3, 4, 6, 7 of every 8-symbol group complete a
byte). -/
def gcount : Nat → Nat
  | 0 => 0 | 1 => 0 | 2 => 1 | 3 => 1 | 4 => 2 | 5 => 3 | 6 => 3 | 7 => 4 | _ => 5

/-- Number of output bytes produced strictly before input position `k`. -/
def fcount (k : Nat) : Nat := 5 * (k / 8) + gcount (k % 8)

-- ------------------------------------------------------------------
-- Concrete executions used by the claims about the replay cache.
-- ------------------------------------------------------------------

/-- Record key `"A"` at time 1000, then key `"B"` at time 100000
(`T0 = 0`, `X = 30`, `offset = 0`): by then the first entry (expiry 989)
is far past the second call's cutoff 99960. -/
def scenarioC1 : Option CacheSt :=
  (totp_cache_update cacheInit [65] ⟨0, 30, 1000, 0, 1, 8, []⟩).bind
    (fun st => totp_cache_update st [66] ⟨0, 30, 100000, 0, 1, 8, []⟩)

/-- Record keys `"A"`, `"B"`, `"C"` at time 1000, then record `"B"` again
at time 1010, superseding the middle entry of the expiry-ordered list. -/
def scenarioC3 : Option CacheSt :=
  (((totp_cache_update cacheInit [65] ⟨0, 30, 1000, 0, 1, 8, []⟩).bind
      (fun st => totp_cache_update st [66] ⟨0, 30, 1000, 0, 1, 8, []⟩)).bind
      (fun st => totp_cache_update st [67] ⟨0, 30, 1000, 0, 1, 8, []⟩)).bind
      (fun st => totp_cache_update st [66] ⟨0, 30, 1010, 0, 1, 8, []⟩)

-- ------------------------------------------------------------------
-- Lemmas: characterisation of the Base32 verifier and decoder
-- ------------------------------------------------------------------

theorem b32get_sint8 (c : Nat) (h : c < 256) :
    b32get (sint8 c) = if c < 128 then some (base32_map.getD c 0) else none := by
  by_cases hc : c < 128
  · have h1 : (0 : Int) ≤ (c : Int) := by exact_mod_cast Nat.zero_le c
    have h2 : (c : Int) < 256 := by exact_mod_cast h
    simp [b32get, sint8, hc, h1, h2]
  · have h2 : ¬ ((0 : Int) ≤ (c : Int) - 256) := by
      have : (c : Int) < 256 := by exact_mod_cast h
      omega
    simp [b32get, sint8, hc, h2]

theorem goodChar_eq_aux : ∀ c : Fin 256, goodChar c.val = (validB32 c.val || c.val == 61) := by
  decide

theorem goodChar_iff (c : Nat) (h : c < 256) : goodChar c = (validB32 c || c == 61) :=
  goodChar_eq_aux ⟨c, h⟩

theorem scanData_step (c : Nat) (h : c < 256) (rest : List Nat) (pos : Nat) :
    scanData (c :: rest) pos =
      if goodChar c then (if c = 61 then .padAt pos rest else scanData rest (pos+1))
      else (if c < 128 then .bad else .oob) := by
  have hb := b32get_sint8 c h
  by_cases hc : c < 128
  · rw [if_pos hc] at hb
    show (match b32get (sint8 c) with
          | none => ScanRes.oob
          | some v => if v = -1 then ScanRes.bad
                      else if c = 61 then ScanRes.padAt pos rest
                      else scanData rest (pos+1)) = _
    rw [hb]
    show (if base32_map.getD c 0 = -1 then ScanRes.bad
          else if c = 61 then ScanRes.padAt pos rest
          else scanData rest (pos+1)) = _
    by_cases hv : base32_map.getD c 0 = -1
    · have hbe : (base32_map.getD c 0 == -1) = true := beq_iff_eq.mpr hv
      have hg : goodChar c = false := by unfold goodChar; rw [hbe]; simp
      rw [if_pos hv, if_neg (by simp [hg]), if_pos hc]
    · have hbe : (base32_map.getD c 0 == -1) = false := by
        cases hx : (base32_map.getD c 0 == -1) with
        | false => rfl
        | true => exact absurd (eq_of_beq hx) hv
      have hg : goodChar c = true := by unfold goodChar; rw [hbe]; simp [hc]
      rw [if_neg hv, if_pos hg]
  · rw [if_neg hc] at hb
    have hg : ¬ goodChar c = true := by unfold goodChar; simp [hc]
    show (match b32get (sint8 c) with
          | none => ScanRes.oob
          | some v => if v = -1 then ScanRes.bad
                      else if c = 61 then ScanRes.padAt pos rest
                      else scanData rest (pos+1)) = _
    rw [hb, if_neg hg, if_neg hc]

theorem scanData_clean (s : List Nat) (pos : Nat) (h : ∀ c ∈ s, c < 256)
    (hd : ∀ c ∈ s, dataChar c = true) :
    scanData s pos = .clean (pos + s.length) := by
  induction s generalizing pos with
  | nil => simp [scanData]
  | cons c rest ih =>
    have hc := h c (by simp)
    have hdc := hd c (by simp)
    have hg : goodChar c = true := ((Bool.and_eq_true _ _).mp hdc).1
    have hne : ¬ c = 61 := by
      have := ((Bool.and_eq_true _ _).mp hdc).2
      simpa using this
    rw [scanData_step c hc, if_pos hg, if_neg hne,
        ih _ (fun x hx => h x (by simp [hx])) (fun x hx => hd x (by simp [hx]))]
    simp only [List.length_cons, ScanRes.clean.injEq]
    omega

theorem scanData_pad (t u : List Nat) (pos : Nat) (h : ∀ c ∈ t, c < 256)
    (hd : ∀ c ∈ t, dataChar c = true) :
    scanData (t ++ 61 :: u) pos = .padAt (pos + t.length) u := by
  induction t generalizing pos with
  | nil =>
    rw [List.nil_append, scanData_step 61 (by omega), if_pos (by decide), if_pos rfl]
    simp
  | cons c rest ih =>
    have hc := h c (by simp)
    have hdc := hd c (by simp)
    have hg : goodChar c = true := ((Bool.and_eq_true _ _).mp hdc).1
    have hne : ¬ c = 61 := by
      have := ((Bool.and_eq_true _ _).mp hdc).2
      simpa using this
    rw [List.cons_append, scanData_step c hc, if_pos hg, if_neg hne,
        ih _ (fun x hx => h x (by simp [hx])) (fun x hx => hd x (by simp [hx]))]
    simp only [List.length_cons, ScanRes.padAt.injEq]
    exact ⟨by omega, trivial⟩

theorem scanData_bad (t : List Nat) (c : Nat) (u : List Nat) (pos : Nat)
    (h : ∀ x ∈ t, x < 256) (hd : ∀ x ∈ t, dataChar x = true)
    (hc : c < 256) (hg : goodChar c = false) :
    scanData (t ++ c :: u) pos = .bad ∨ scanData (t ++ c :: u) pos = .oob := by
  induction t generalizing pos with
  | nil =>
    rw [List.nil_append, scanData_step c hc, if_neg (by simp [hg])]
    by_cases h128 : c < 128
    · exact Or.inl (by rw [if_pos h128])
    · exact Or.inr (by rw [if_neg h128])
  | cons x rest ih =>
    have hx := h x (by simp)
    have hdx := hd x (by simp)
    have hgx : goodChar x = true := ((Bool.and_eq_true _ _).mp hdx).1
    have hne : ¬ x = 61 := by
      have := ((Bool.and_eq_true _ _).mp hdx).2
      simpa using this
    rw [List.cons_append, scanData_step x hx, if_pos hgx, if_neg hne]
    exact ih (pos + 1) (fun y hy => h y (by simp [hy])) (fun y hy => hd y (by simp [hy]))

theorem takeWhile_append_all (p : Nat → Bool) (t u : List Nat) (h : ∀ x ∈ t, p x = true) :
    (t ++ u).takeWhile p = t ++ u.takeWhile p := by
  induction t with
  | nil => simp
  | cons c rest ih =>
    have hc := h c (by simp)
    rw [List.cons_append, List.takeWhile_cons, if_pos hc, List.cons_append,
        ih (fun x hx => h x (by simp [hx]))]

theorem dropWhile_append_all (p : Nat → Bool) (t u : List Nat) (h : ∀ x ∈ t, p x = true) :
    (t ++ u).dropWhile p = u.dropWhile p := by
  induction t with
  | nil => simp
  | cons c rest ih =>
    have hc := h c (by simp)
    rw [List.cons_append, List.dropWhile_cons, if_pos hc,
        ih (fun x hx => h x (by simp [hx]))]

theorem getD_takeWhile (p : Nat → Bool) (s : List Nat) (j : Nat)
    (hj : j < (s.takeWhile p).length) : p (s.getD j 0) = true := by
  induction s generalizing j with
  | nil => simp at hj
  | cons c rest ih =>
    rw [List.takeWhile_cons] at hj
    by_cases hc : p c = true
    · rw [if_pos hc] at hj
      cases j with
      | zero => simpa using hc
      | succ j =>
        rw [List.getD_cons_succ]
        exact ih j (by simpa using hj)
    · rw [if_neg hc] at hj
      simp at hj

theorem dropWhile_head_false (p : Nat → Bool) (s : List Nat) (c : Nat) (u : List Nat)
    (h : s.dropWhile p = c :: u) : p c = false := by
  induction s with
  | nil => simp at h
  | cons x rest ih =>
    rw [List.dropWhile_cons] at h
    by_cases hx : p x = true
    · rw [if_pos hx] at h
      exact ih h
    · rw [if_neg hx] at h
      injection h with h1 h2
      subst h1
      exact Bool.not_eq_true _ |>.mp hx

theorem getD_at_firstDrop (p : Nat → Bool) (s : List Nat) (c : Nat) (u : List Nat)
    (h : s.dropWhile p = c :: u) : s.getD (s.takeWhile p).length 0 = c := by
  induction s with
  | nil => simp at h
  | cons x rest ih =>
    rw [List.dropWhile_cons] at h
    by_cases hx : p x = true
    · rw [if_pos hx] at h
      rw [List.takeWhile_cons, if_pos hx]
      simp only [List.length_cons, List.getD_cons_succ]
      exact ih h
    · rw [if_neg hx] at h
      injection h with h1 h2
      rw [List.takeWhile_cons, if_neg hx]
      simpa [h1]

theorem takeWhile_add_dropWhile_length (p : Nat → Bool) (s : List Nat) :
    (s.takeWhile p).length + (s.dropWhile p).length = s.length := by
  conv_rhs => rw [← List.takeWhile_append_dropWhile (p := p) (l := s)]
  rw [List.length_append]

theorem all_validB32_of_dataChar (t : List Nat) (h256 : ∀ x ∈ t, x < 256)
    (hd : ∀ x ∈ t, dataChar x = true) : t.all validB32 = true := by
  rw [List.all_eq_true]
  intro x hx
  have hg : goodChar x = true := ((Bool.and_eq_true _ _).mp (hd x hx)).1
  have hne : ¬ x = 61 := by simpa using ((Bool.and_eq_true _ _).mp (hd x hx)).2
  have hiff := goodChar_iff x (h256 x hx)
  rw [hg] at hiff
  have h61 : (x == 61) = false := by simpa using hne
  rw [h61, Bool.or_false] at hiff
  exact hiff.symm

theorem notPad_of_dataChar (t : List Nat) (hd : ∀ x ∈ t, dataChar x = true) :
    ∀ x ∈ t, (fun c => !(c == 61)) x = true := by
  intro x hx
  have := ((Bool.and_eq_true _ _).mp (hd x hx)).2
  simpa using this

theorem verify_ok_iff (s : List Nat) (n : Nat) (h : ∀ c ∈ s, c < 256) :
    totp_base32_verify s = .ok n ↔
      (base32_spec_ok s = true ∧ n = (specDat s).length * 5 / 8) := by
  have hsplit : s.takeWhile dataChar ++ s.dropWhile dataChar = s :=
    List.takeWhile_append_dropWhile dataChar s
  have ht : ∀ x ∈ s.takeWhile dataChar, dataChar x = true :=
    fun x hx => List.mem_takeWhile_imp hx
  have ht256 : ∀ x ∈ s.takeWhile dataChar, x < 256 := by
    intro x hx
    exact h x (by rw [← hsplit]; exact List.mem_append_left _ hx)
  have hq : ∀ x ∈ s.takeWhile dataChar, (fun c => !(c == 61)) x = true :=
    notPad_of_dataChar _ ht
  cases hrd : s.dropWhile dataChar with
  | nil =>
    have hts : s.takeWhile dataChar = s := by
      rw [hrd, List.append_nil] at hsplit
      exact hsplit
    have hall : ∀ c ∈ s, dataChar c = true := by
      intro c hc
      exact ht c (by rw [hts]; exact hc)
    have hqs : ∀ x ∈ s, (fun c => !(c == 61)) x = true := notPad_of_dataChar s hall
    have hdat : specDat s = s := by
      unfold specDat
      have h0 := takeWhile_append_all (fun c => !(c == 61)) s [] hqs
      simpa using h0
    have hpad : specPad s = [] := by
      unfold specPad
      have h0 := dropWhile_append_all (fun c => !(c == 61)) s [] hqs
      simpa using h0
    have hscan : scanData s 0 = .clean s.length := by
      have h0 := scanData_clean s 0 h hall
      simpa using h0
    have hval : s.all validB32 = true := all_validB32_of_dataChar s h hall
    have hspec : base32_spec_ok s = residueB (specDat s).length := by
      unfold base32_spec_ok padShape
      rw [hpad, hdat, hval]
      simp
    simp only [totp_base32_verify, hscan]
    rw [hspec, hdat]
    by_cases hres : residueB s.length = true
    · rw [hres, if_pos rfl]
      constructor
      · intro hok
        injection hok with h1
        exact ⟨rfl, h1.symm⟩
      · rintro ⟨-, rfl⟩
        rfl
    · rw [if_neg (by simpa using hres)]
      constructor
      · intro hk
        cases hk
      · rintro ⟨hk, -⟩
        rw [hk] at hres
        exact absurd rfl hres
  | cons c u =>
    have hsp : s.takeWhile dataChar ++ c :: u = s := by rw [← hrd]; exact hsplit
    have hc256 : c < 256 := by
      refine h c ?_
      rw [← hsp]
      exact List.mem_append_right _ (by simp)
    have hdc : dataChar c = false := dropWhile_head_false _ s c u hrd
    by_cases hc61 : c = 61
    · -- the pad case
      subst hc61
      have hdat : specDat s = s.takeWhile dataChar := by
        have h0 : specDat s
            = (s.takeWhile dataChar ++ 61 :: u).takeWhile (fun c => !(c == 61)) := by
          unfold specDat
          rw [hsp]
        rw [h0, takeWhile_append_all _ _ _ hq]
        simp [List.takeWhile_cons]
      have hpad : specPad s = 61 :: u := by
        have h0 : specPad s
            = (s.takeWhile dataChar ++ 61 :: u).dropWhile (fun c => !(c == 61)) := by
          unfold specPad
          rw [hsp]
        rw [h0, dropWhile_append_all _ _ _ hq]
        simp [List.dropWhile_cons]
      have hscan : scanData s 0 = .padAt (s.takeWhile dataChar).length u := by
        have h0 := scanData_pad (s.takeWhile dataChar) u 0 ht256 ht
        rw [hsp] at h0
        simpa using h0
      have hval := all_validB32_of_dataChar _ ht256 ht
      simp only [totp_base32_verify, hscan]
      unfold base32_spec_ok padShape
      rw [hpad, hdat, hval]
      set p : Nat := (s.takeWhile dataChar).length with hp
      simp only [List.isEmpty_cons, List.all_cons, beq_self_eq_true, Bool.true_and,
        Bool.false_or]
      constructor
      · intro hok
        by_cases h1 : p % 8 < 2
        · rw [if_pos h1] at hok
          cases hok
        rw [if_neg h1] at hok
        by_cases h2 : p + (8 - p % 8) ≠ s.length
        · rw [if_pos h2] at hok
          cases hok
        rw [if_neg h2] at hok
        by_cases h3 : u.all (fun c => c == 61) = true
        · rw [if_pos h3] at hok
          by_cases h4 : residueB p = true
          · rw [if_pos h4] at hok
            injection hok with hn
            have e2 : decide (2 ≤ p % 8) = true := decide_eq_true (by omega)
            have e3 : (p + (8 - p % 8) == s.length) = true := by
              simpa using not_not.mp h2
            rw [h3, e2, e3, h4]
            exact ⟨rfl, hn.symm⟩
          · rw [if_neg h4] at hok
            cases hok
        · rw [if_neg h3] at hok
          cases hok
      · rintro ⟨hb, rfl⟩
        have hb' := hb
        simp only [Bool.and_eq_true, decide_eq_true_eq, beq_iff_eq] at hb'
        obtain ⟨⟨⟨hall61, hge2⟩, hlen⟩, hres⟩ := hb'
        rw [if_neg (by omega), if_neg (by simpa using hlen), if_pos hall61,
          if_pos hres]
    · -- an invalid character before any padding
      have hgc : goodChar c = false := by
        have hdef : dataChar c = (goodChar c && !(c == 61)) := rfl
        have h61 : (c == 61) = false := by simpa using hc61
        rw [hdef, h61] at hdc
        simpa using hdc
      have hbad := scanData_bad (s.takeWhile dataChar) c u 0 ht256 ht hc256 hgc
      rw [hsp] at hbad
      have hvc : validB32 c = false := by
        have hiff := goodChar_iff c hc256
        rw [hgc] at hiff
        have h61 : (c == 61) = false := by simpa using hc61
        rw [h61, Bool.or_false] at hiff
        exact hiff.symm
      have hcmem : c ∈ specDat s := by
        unfold specDat
        rw [← hsp, takeWhile_append_all _ _ _ hq, List.takeWhile_cons]
        have hqc : (!(c == 61)) = true := by simpa using hc61
        rw [if_pos hqc]
        exact List.mem_append_right _ (by simp)
      have hall : (specDat s).all validB32 = false := by
        cases hx : (specDat s).all validB32 with
        | false => rfl
        | true => exact absurd (List.all_eq_true.mp hx c hcmem) (by simp [hvc])
      have hspec : base32_spec_ok s = false := by
        unfold base32_spec_ok
        rw [hall]
        simp
      constructor
      · intro hok
        rcases hbad with hb | hb <;> simp only [totp_base32_verify, hb] at hok <;> cases hok
      · rintro ⟨hs2, -⟩
        rw [hspec] at hs2
        cases hs2

theorem decodeLoop_length (s : List Nat) :
    ∀ r pos out, (decodeLoop s r pos out).length = out.length + dlLen s r pos := by
  intro r
  induction r with
  | zero => intro pos out; simp [decodeLoop, dlLen]
  | succ r ih =>
    intro pos out
    simp only [decodeLoop, dlLen]
    split_ifs <;> simp [ih] <;> omega

theorem dlLen_stop (s : List Nat) (r pos : Nat) (h1 : 1 ≤ r)
    (hmod : pos % 8 = 0 ∨ pos % 8 = 2 ∨ pos % 8 = 4 ∨ pos % 8 = 5 ∨ pos % 8 = 7)
    (h61 : s.getD pos 0 = 61) : dlLen s r pos = 0 := by
  obtain ⟨r2, rfl⟩ : ∃ r2, r = r2 + 1 := ⟨r - 1, by omega⟩
  simp only [List.getD_eq_getElem?_getD] at h61
  rcases hmod with hm | hm | hm | hm | hm <;> simp [dlLen, hm, h61]

theorem dlLen_write (s : List Nat) (r pos : Nat) (h1 : 1 ≤ r)
    (hmod : pos % 8 = 1 ∨ pos % 8 = 3 ∨ pos % 8 = 6) :
    dlLen s r pos = 1 + dlLen s (r-1) (pos+1) := by
  obtain ⟨r2, rfl⟩ : ∃ r2, r = r2 + 1 := ⟨r - 1, by omega⟩
  rcases hmod with hm | hm | hm <;> simp [dlLen, hm]

theorem dlLen_writeCheck (s : List Nat) (r pos : Nat) (h1 : 1 ≤ r)
    (hmod : pos % 8 = 4 ∨ pos % 8 = 7) (h61 : ¬ s.getD pos 0 = 61) :
    dlLen s r pos = 1 + dlLen s (r-1) (pos+1) := by
  obtain ⟨r2, rfl⟩ : ∃ r2, r = r2 + 1 := ⟨r - 1, by omega⟩
  simp only [List.getD_eq_getElem?_getD] at h61
  rcases hmod with hm | hm <;> simp [dlLen, hm, h61]

theorem dlLen_skip (s : List Nat) (r pos : Nat) (h1 : 1 ≤ r)
    (hmod : pos % 8 = 0 ∨ pos % 8 = 2 ∨ pos % 8 = 5) (h61 : ¬ s.getD pos 0 = 61) :
    dlLen s r pos = dlLen s (r-1) (pos+1) := by
  obtain ⟨r2, rfl⟩ : ∃ r2, r = r2 + 1 := ⟨r - 1, by omega⟩
  simp only [List.getD_eq_getElem?_getD] at h61
  rcases hmod with hm | hm | hm <;> simp [dlLen, hm, h61]

theorem fcount_eight (r : Nat) : fcount (8 + r) = 5 + fcount r := by
  unfold fcount
  have h1 : (8 + r) / 8 = 1 + r / 8 := by omega
  have h2 : (8 + r) % 8 = r % 8 := by omega
  rw [h1, h2]
  ring

theorem dlLen_nopad_gen (s : List Nat) :
    ∀ r pos, (∀ j, j < r → s.getD (pos + j) 0 ≠ 61) →
      dlLen s r pos + fcount (pos % 8) = fcount (pos % 8 + r) := by
  intro r
  induction r with
  | zero => intro pos _; simp [dlLen]
  | succ r ih =>
    intro pos hno
    have h0 : ¬ s.getD pos 0 = 61 := by simpa using hno 0 (by omega)
    have hno2 : ∀ j, j < r → s.getD (pos + 1 + j) 0 ≠ 61 := by
      intro j hj
      have hx := hno (1 + j) (by omega)
      rwa [← Nat.add_assoc] at hx
    have hIH := ih (pos + 1) hno2
    have hm8 : pos % 8 = 0 ∨ pos % 8 = 1 ∨ pos % 8 = 2 ∨ pos % 8 = 3 ∨ pos % 8 = 4 ∨
        pos % 8 = 5 ∨ pos % 8 = 6 ∨ pos % 8 = 7 := by omega
    rcases hm8 with hm | hm | hm | hm | hm | hm | hm | hm
    · rw [dlLen_skip s (r+1) pos (by omega) (by omega) h0, Nat.add_sub_cancel]
      have hm1 : (pos + 1) % 8 = 1 := by omega
      rw [hm1] at hIH
      rw [hm]
      rw [show (0 : Nat) + (r + 1) = 1 + r by omega]
      have e1 : fcount 0 = 0 := rfl
      have e2 : fcount 1 = 0 := rfl
      omega
    · rw [dlLen_write s (r+1) pos (by omega) (by omega), Nat.add_sub_cancel]
      have hm1 : (pos + 1) % 8 = 2 := by omega
      rw [hm1] at hIH
      rw [hm]
      rw [show (1 : Nat) + (r + 1) = 2 + r by omega]
      have e1 : fcount 1 = 0 := rfl
      have e2 : fcount 2 = 1 := rfl
      omega
    · rw [dlLen_skip s (r+1) pos (by omega) (by omega) h0, Nat.add_sub_cancel]
      have hm1 : (pos + 1) % 8 = 3 := by omega
      rw [hm1] at hIH
      rw [hm]
      rw [show (2 : Nat) + (r + 1) = 3 + r by omega]
      have e1 : fcount 2 = 1 := rfl
      have e2 : fcount 3 = 1 := rfl
      omega
    · rw [dlLen_write s (r+1) pos (by omega) (by omega), Nat.add_sub_cancel]
      have hm1 : (pos + 1) % 8 = 4 := by omega
      rw [hm1] at hIH
      rw [hm]
      rw [show (3 : Nat) + (r + 1) = 4 + r by omega]
      have e1 : fcount 3 = 1 := rfl
      have e2 : fcount 4 = 2 := rfl
      omega
    · rw [dlLen_writeCheck s (r+1) pos (by omega) (by omega) h0, Nat.add_sub_cancel]
      have hm1 : (pos + 1) % 8 = 5 := by omega
      rw [hm1] at hIH
      rw [hm]
      rw [show (4 : Nat) + (r + 1) = 5 + r by omega]
      have e1 : fcount 4 = 2 := rfl
      have e2 : fcount 5 = 3 := rfl
      omega
    · rw [dlLen_skip s (r+1) pos (by omega) (by omega) h0, Nat.add_sub_cancel]
      have hm1 : (pos + 1) % 8 = 6 := by omega
      rw [hm1] at hIH
      rw [hm]
      rw [show (5 : Nat) + (r + 1) = 6 + r by omega]
      have e1 : fcount 5 = 3 := rfl
      have e2 : fcount 6 = 3 := rfl
      omega
    · rw [dlLen_write s (r+1) pos (by omega) (by omega), Nat.add_sub_cancel]
      have hm1 : (pos + 1) % 8 = 7 := by omega
      rw [hm1] at hIH
      rw [hm]
      rw [show (6 : Nat) + (r + 1) = 7 + r by omega]
      have e1 : fcount 6 = 3 := rfl
      have e2 : fcount 7 = 4 := rfl
      omega
    · rw [dlLen_writeCheck s (r+1) pos (by omega) (by omega) h0, Nat.add_sub_cancel]
      have hm1 : (pos + 1) % 8 = 0 := by omega
      rw [hm1] at hIH
      rw [hm]
      rw [show (7 : Nat) + (r + 1) = 8 + r by omega, fcount_eight]
      rw [show (0 : Nat) + r = r by omega] at hIH
      have e1 : fcount 7 = 4 := rfl
      have e2 : fcount 0 = 0 := rfl
      omega

theorem dlLen_pad_gen (s : List Nat) :
    ∀ d r pos, d < r → (∀ j, j < d → s.getD (pos + j) 0 ≠ 61) →
      s.getD (pos + d) 0 = 61 →
      ((pos + d) % 8 = 0 ∨ (pos + d) % 8 = 2 ∨ (pos + d) % 8 = 4 ∨
        (pos + d) % 8 = 5 ∨ (pos + d) % 8 = 7) →
      dlLen s r pos + fcount (pos % 8) = fcount (pos % 8 + d) := by
  intro d
  induction d with
  | zero =>
    intro r pos hdr _ h61 hmod
    have h61b : s.getD pos 0 = 61 := by simpa using h61
    have hmodb : pos % 8 = 0 ∨ pos % 8 = 2 ∨ pos % 8 = 4 ∨ pos % 8 = 5 ∨ pos % 8 = 7 := by
      simpa using hmod
    rw [dlLen_stop s r pos (by omega) hmodb h61b]
    simp
  | succ d ih =>
    intro r pos hdr hno h61 hmod
    have h0 : ¬ s.getD pos 0 = 61 := by simpa using hno 0 (by omega)
    have hno2 : ∀ j, j < d → s.getD (pos + 1 + j) 0 ≠ 61 := by
      intro j hj
      have hx := hno (1 + j) (by omega)
      rwa [← Nat.add_assoc] at hx
    have h61b : s.getD (pos + 1 + d) 0 = 61 := by
      have harg : pos + 1 + d = pos + (d + 1) := by omega
      rw [harg]
      exact h61
    have hmodb : (pos + 1 + d) % 8 = 0 ∨ (pos + 1 + d) % 8 = 2 ∨ (pos + 1 + d) % 8 = 4 ∨
        (pos + 1 + d) % 8 = 5 ∨ (pos + 1 + d) % 8 = 7 := by
      have harg : pos + 1 + d = pos + (d + 1) := by omega
      rw [harg]
      exact hmod
    have hIH := ih (r - 1) (pos + 1) (by omega) hno2 h61b hmodb
    have hm8 : pos % 8 = 0 ∨ pos % 8 = 1 ∨ pos % 8 = 2 ∨ pos % 8 = 3 ∨ pos % 8 = 4 ∨
        pos % 8 = 5 ∨ pos % 8 = 6 ∨ pos % 8 = 7 := by omega
    rcases hm8 with hm | hm | hm | hm | hm | hm | hm | hm
    · rw [dlLen_skip s r pos (by omega) (by omega) h0]
      have hm1 : (pos + 1) % 8 = 1 := by omega
      rw [hm1] at hIH
      rw [hm]
      rw [show (0 : Nat) + (d + 1) = 1 + d by omega]
      have e1 : fcount 0 = 0 := rfl
      have e2 : fcount 1 = 0 := rfl
      omega
    · rw [dlLen_write s r pos (by omega) (by omega)]
      have hm1 : (pos + 1) % 8 = 2 := by omega
      rw [hm1] at hIH
      rw [hm]
      rw [show (1 : Nat) + (d + 1) = 2 + d by omega]
      have e1 : fcount 1 = 0 := rfl
      have e2 : fcount 2 = 1 := rfl
      omega
    · rw [dlLen_skip s r pos (by omega) (by omega) h0]
      have hm1 : (pos + 1) % 8 = 3 := by omega
      rw [hm1] at hIH
      rw [hm]
      rw [show (2 : Nat) + (d + 1) = 3 + d by omega]
      have e1 : fcount 2 = 1 := rfl
      have e2 : fcount 3 = 1 := rfl
      omega
    · rw [dlLen_write s r pos (by omega) (by omega)]
      have hm1 : (pos + 1) % 8 = 4 := by omega
      rw [hm1] at hIH
      rw [hm]
      rw [show (3 : Nat) + (d + 1) = 4 + d by omega]
      have e1 : fcount 3 = 1 := rfl
      have e2 : fcount 4 = 2 := rfl
      omega
    · rw [dlLen_writeCheck s r pos (by omega) (by omega) h0]
      have hm1 : (pos + 1) % 8 = 5 := by omega
      rw [hm1] at hIH
      rw [hm]
      rw [show (4 : Nat) + (d + 1) = 5 + d by omega]
      have e1 : fcount 4 = 2 := rfl
      have e2 : fcount 5 = 3 := rfl
      omega
    · rw [dlLen_skip s r pos (by omega) (by omega) h0]
      have hm1 : (pos + 1) % 8 = 6 := by omega
      rw [hm1] at hIH
      rw [hm]
      rw [show (5 : Nat) + (d + 1) = 6 + d by omega]
      have e1 : fcount 5 = 3 := rfl
      have e2 : fcount 6 = 3 := rfl
      omega
    · rw [dlLen_write s r pos (by omega) (by omega)]
      have hm1 : (pos + 1) % 8 = 7 := by omega
      rw [hm1] at hIH
      rw [hm]
      rw [show (6 : Nat) + (d + 1) = 7 + d by omega]
      have e1 : fcount 6 = 3 := rfl
      have e2 : fcount 7 = 4 := rfl
      omega
    · rw [dlLen_writeCheck s r pos (by omega) (by omega) h0]
      have hm1 : (pos + 1) % 8 = 0 := by omega
      rw [hm1] at hIH
      rw [hm]
      rw [show (7 : Nat) + (d + 1) = 8 + d by omega, fcount_eight]
      rw [show (0 : Nat) + d = d by omega] at hIH
      have e1 : fcount 7 = 4 := rfl
      have e2 : fcount 0 = 0 := rfl
      omega

theorem fcount_eq_div (L : Nat) (hres : residueB L = true) : fcount L = L * 5 / 8 := by
  simp only [residueB, Bool.or_eq_true, beq_iff_eq] at hres
  unfold fcount
  rcases hres with ((((h | h) | h) | h) | h) <;> rw [h] <;> first
    | (have e : gcount 0 = 0 := rfl
       omega)
    | (have e : gcount 2 = 1 := rfl
       omega)
    | (have e : gcount 4 = 2 := rfl
       omega)
    | (have e : gcount 5 = 3 := rfl
       omega)
    | (have e : gcount 7 = 4 := rfl
       omega)

theorem base32_decode_length (s : List Nat) (n dstlen : Nat) (h : ∀ c ∈ s, c < 256)
    (hok : totp_base32_verify s = .ok n) (hcap : n ≤ dstlen) :
    (totp_base32_decode dstlen s).outLength = some n := by
  obtain ⟨hspec, hn⟩ := (verify_ok_iff s n h).mp hok
  have hlen : totp_base32_decode dstlen s = .ok (decodeLoop s s.length 0 []) := by
    simp only [totp_base32_decode, hok]
    rw [if_neg (by omega)]
  rw [hlen]
  simp only [DecodeResult.outLength]
  apply congrArg
  rw [decodeLoop_length]
  simp only [List.length_nil, Nat.zero_add]
  unfold base32_spec_ok at hspec
  rw [Bool.and_eq_true, Bool.and_eq_true] at hspec
  obtain ⟨⟨hall, hshape⟩, hres⟩ := hspec
  have hnopad : ∀ j, j < (specDat s).length → s.getD (0 + j) 0 ≠ 61 := by
    intro j hj
    have hx := getD_takeWhile (fun c => !(c == 61)) s j hj
    intro hEq
    rw [Nat.zero_add] at hEq
    rw [hEq] at hx
    simp at hx
  cases hpe : specPad s with
  | nil =>
    have hsum := takeWhile_add_dropWhile_length (fun c => !(c == 61)) s
    have hpl : (specPad s).length = 0 := by rw [hpe]; rfl
    have hds : (specDat s).length = s.length := by
      have : (specDat s).length + (specPad s).length = s.length := hsum
      omega
    have hmain := dlLen_nopad_gen s s.length 0 (by rw [← hds]; exact hnopad)
    have hf0 : fcount (0 % 8) = 0 := rfl
    have harg : 0 % 8 + s.length = s.length := by omega
    rw [harg, hf0] at hmain
    have hcf := fcount_eq_div s.length (by rw [← hds]; exact hres)
    have hds2 := hds
    omega
  | cons c u =>
    have hc61 : c = 61 := by
      have hx := dropWhile_head_false (fun c => !(c == 61)) s c u hpe
      simpa using hx
    subst hc61
    have h61 : s.getD (0 + (specDat s).length) 0 = 61 := by
      have hx := getD_at_firstDrop (fun c => !(c == 61)) s 61 u hpe
      rw [Nat.zero_add]
      exact hx
    have hsum := takeWhile_add_dropWhile_length (fun c => !(c == 61)) s
    have hdlt : (specDat s).length < s.length := by
      have hpl : (specPad s).length = u.length + 1 := by rw [hpe]; rfl
      have : (specDat s).length + (specPad s).length = s.length := hsum
      omega
    have hmodres : (0 + (specDat s).length) % 8 = 0 ∨ (0 + (specDat s).length) % 8 = 2 ∨
        (0 + (specDat s).length) % 8 = 4 ∨ (0 + (specDat s).length) % 8 = 5 ∨
        (0 + (specDat s).length) % 8 = 7 := by
      have hres2 := hres
      simp only [residueB, Bool.or_eq_true, beq_iff_eq] at hres2
      omega
    have hmain := dlLen_pad_gen s (specDat s).length s.length 0 hdlt hnopad h61 hmodres
    have hf0 : fcount (0 % 8) = 0 := rfl
    have harg : 0 % 8 + (specDat s).length = (specDat s).length := by omega
    rw [harg, hf0] at hmain
    have hcf := fcount_eq_div (specDat s).length hres
    omega

-- ------------------------------------------------------------------
-- Claim theorems
-- ------------------------------------------------------------------

/-- C1: the eviction sweep removes nothing.  At the second record
operation the cutoff is 99960 and the entry for key `"A"` (at address 1)
has expiry 989 < 99960, yet after the operation that entry is still in
the point-lookup tree and still reachable in the expiry-ordered list:
the insertion code never sets the sentinel's `next` pointer, which is the
field `totp_cache_cleanup`'s loop condition tests, so the sweep is
unreachable — the claim that the sweep drains expired entries from both
indices fails. -/
theorem c1_sweep_removes_nothing :
    cacheCutoff ⟨0, 30, 100000, 0, 1, 8, []⟩ = some 99960 ∧
    scenarioC1.map (fun st =>
      (treeHasKey st [65], (backKeys st).contains [65],
       (hget st 1).map (fun e => e.entry_expires),
       (hget st 0).map (fun e => e.next)))
    = some (true, true, some 989, some none) := by decide

/-- C2: `totp_calculate` has no guard for `totp_x == 0`: with
`T0 = 0`, `now = 100`, `offset = 0` and `X = 0` the domain check passes
and the function reaches the unguarded division `params->totp_t /=
params->totp_x` — undefined behaviour instead of the domain error the
claim (and the spec) require. -/
theorem c2_division_by_zero_reachable :
    totp_calculate ⟨0, 0, 100, 0, 1, 8, rfcKey⟩ = .divByZero := by decide

/-- C3: the dual-index invariant is violated.  After recording `"A"`,
`"B"`, `"C"` and then re-recording `"B"` (which unlinks the middle list
entry), entry 1 (`"A"`) has `next = 3` but entry 3 (`"C"`) has
`prev = NULL` — `totp_cache_entry_unlink` zeroes `entry->prev` before
copying it into `entry->next->prev` — and `"A"`, though still in the
tree, is no longer reachable from the newest end of the expiry list. -/
theorem c3_dual_index_invariant_violated :
    scenarioC3.map (fun st =>
      ((hget st 1).map (fun e => e.next), (hget st 3).map (fun e => e.prev),
       treeHasKey st [65], (backKeys st).contains [65]))
    = some (some (some 3), some none, true, false) := by decide

/-- C4: the RFC 6238 known-answer vectors.  With `T0 = 0`, `X = 30`,
`offset = 0`, SHA1, 8 digits and the ASCII key `"12345678901234567890"`,
`totp_calculate` produces `"94287082"` at time 59 (step 1), `"07081804"`
at time 1111111109 (step 37037036) and `"89005924"` at time 1234567890
(step 41152263). -/
theorem c4_rfc6238_vectors :
    totp_calculate ⟨0, 30, 59, 0, 1, 8, rfcKey⟩ = .ok 94287082 "94287082" 1 ∧
    totp_calculate ⟨0, 30, 1111111109, 0, 1, 8, rfcKey⟩ = .ok 7081804 "07081804" 37037036 ∧
    totp_calculate ⟨0, 30, 1234567890, 0, 1, 8, rfcKey⟩ = .ok 89005924 "89005924" 41152263 := by
  refine ⟨?_, ?_, ?_⟩ <;> rfl

/-- C5: the validator does not reject every character outside
`[A-Za-z2-7=018]`.  The byte `0x7B` (`{`) is outside the claimed set but
`base32_map[0x7B] == 26`, so the string `"A{"` is ACCEPTED (returning
length 1); and a byte `≥ 0x80` (here `0x80`) is not rejected with the
invalid-character error either — it drives the signed table index out of
bounds. -/
theorem c5_invalid_characters_not_rejected :
    totp_base32_verify [65, 123] = .ok 1 ∧ validB32_claimed 123 = false ∧
    totp_base32_verify [128, 65] = .oobRead := by decide

/-- C10: the table lookup of `totp_base32_verify` is NOT always in
bounds: the source indexes `base32_map` with `(int8_t)src[pos]`, so the
input byte `0x80` produces index `-128` and the out-of-range branch of
the totalised lookup is reached. -/
theorem c10_signed_cast_index_out_of_bounds :
    sint8 128 = -128 ∧ b32get (sint8 128) = none ∧
    totp_base32_verify [128] = .oobRead := by decide

/-- C6 (counterexample): with `T0 = 0`, `now = 10`, `offset = -20`, the
adjusted time `now + offset = -10` is below `T0` as a mathematical
integer, yet `totp_calculate` does not fail: the `uint64_t` sum wraps to
`2^64 - 10`, the domain check passes, and a code derived from the wrapped
interval is returned. -/
theorem c6_negative_offset_wraps :
    ((10 : Int) + (-20) < (0 : Int)) ∧
    totp_calculate ⟨0, 30, 10, -20, 1, 8, rfcKey⟩ =
      .ok 28277486 "28277486" 614891469123651720 := by
  exact ⟨by decide, by rfl⟩

/-- C6 (amended): the domain check compares in `uint64_t`; whenever the
mathematical value of `now + offset` is non-negative and below `T0`
(with `T0` a representable `uint64_t`), no wrap occurs and
`totp_calculate` fails with the domain error, returning no code. -/
theorem c6_domain_error_when_adjusted_time_below_t0 (p : TotpParams)
    (h0 : 0 ≤ (p.totp_cur_unix : Int) + p.totp_time_offset)
    (h1 : (p.totp_cur_unix : Int) + p.totp_time_offset < (p.totp_t0 : Int))
    (h2 : p.totp_t0 < U64) :
    totp_calculate p = .err := by
  have hU : ((p.totp_t0 : Int)) < (U64 : Int) := by exact_mod_cast h2
  have hx : ((p.totp_cur_unix : Int) + p.totp_time_offset) % (U64 : Int)
      = (p.totp_cur_unix : Int) + p.totp_time_offset :=
    Int.emod_emod_of_dvd _ dvd_rfl ▸ Int.emod_eq_of_lt h0 (lt_trans h1 hU)
  have ht := Int.toNat_of_nonneg h0
  have hcond : p.totp_t0 > u64ofInt ((p.totp_cur_unix : Int) + p.totp_time_offset) := by
    unfold u64ofInt
    rw [hx]
    omega
  unfold totp_calculate
  rw [if_pos hcond]

/-- Witness for `c6_domain_error_when_adjusted_time_below_t0` at
`T0 = 100`, `now = 10`, `offset = 0`. -/
theorem c6_domain_error_witness :
    (0 ≤ ((10 : Nat) : Int) + (0 : Int)) ∧ (((10 : Nat) : Int) + (0 : Int) < ((100 : Nat) : Int)) ∧
    (100 < U64) ∧ totp_calculate ⟨100, 30, 10, 0, 1, 8, rfcKey⟩ = .err :=
  ⟨by decide, by decide, by decide,
   c6_domain_error_when_adjusted_time_below_t0 ⟨100, 30, 10, 0, 1, 8, rfcKey⟩
     (by decide) (by decide) (by decide)⟩

/-- C7: the expiry value stored by `totp_cache_update` equals
`(T - 1) * X + X - 1` computed in unsigned 64-bit arithmetic, where
`T` is the time-step index `((now + offset) - T0) / X` (also in
`uint64_t`).  The source computes it as the statement sequence
`expires = now - t0 + offset; expires /= x; expires--; expires *= x;`
followed by `entry->entry_expires = expires + x - 1`. -/
theorem c7_expiry_formula (p : TotpParams) (hx : 0 < p.totp_x) :
    cacheEntryExpiry p =
      some (((((time_step_index p : Int) - 1) * (p.totp_x : Int) + (p.totp_x : Int) - 1)
              % ((U64 : Nat) : Int)).toNat) := by
  have hx0 : ¬ p.totp_x = 0 := by omega
  simp only [cacheEntryExpiry, cacheCutoff, hx0, if_false, Option.map_some']
  apply congrArg
  show ((((time_step_index p + (U64 - 1)) % U64) * p.totp_x % U64 + p.totp_x + (U64 - 1)) % U64)
      = ((((time_step_index p : Int) - 1) * (p.totp_x : Int) + (p.totp_x : Int) - 1)
          % ((U64 : Nat) : Int)).toNat
  generalize time_step_index p = T
  have hU : (U64 : Nat) = 18446744073709551616 := rfl
  have hU1 : (U64 : Nat) - 1 = 18446744073709551615 := rfl
  have hcast : ((18446744073709551616 : Nat) : Int) = (18446744073709551616 : Int) := by norm_cast
  rw [hU1, hU, hcast]
  have key : (((((T + 18446744073709551615) % 18446744073709551616) * p.totp_x
                  % 18446744073709551616 + p.totp_x + 18446744073709551615)
                % 18446744073709551616 : Nat) : Int)
      = (((T : Int) - 1) * (p.totp_x : Int) + (p.totp_x : Int) - 1) % 18446744073709551616 := by
    push_cast
    have m1 : ((T : Int) + 18446744073709551615) % 18446744073709551616
        ≡ (T : Int) + 18446744073709551615 [ZMOD 18446744073709551616] :=
      Int.emod_emod_of_dvd _ dvd_rfl
    have m3 : (((T : Int) + 18446744073709551615) % 18446744073709551616 * (p.totp_x : Int))
          % 18446744073709551616
        ≡ ((T : Int) + 18446744073709551615) * (p.totp_x : Int) [ZMOD 18446744073709551616] :=
      (Int.emod_emod_of_dvd _ dvd_rfl).trans (m1.mul_right _)
    have m4 := m3.add_right ((p.totp_x : Int) + 18446744073709551615)
    have m5 : ((T : Int) + 18446744073709551615) * (p.totp_x : Int)
            + ((p.totp_x : Int) + 18446744073709551615)
        ≡ ((T : Int) - 1) * (p.totp_x : Int) + (p.totp_x : Int) - 1
          [ZMOD 18446744073709551616] := by
      rw [Int.ModEq]
      have hsplit : ((T : Int) + 18446744073709551615) * (p.totp_x : Int)
            + ((p.totp_x : Int) + 18446744073709551615)
          = (((T : Int) - 1) * (p.totp_x : Int) + (p.totp_x : Int) - 1)
            + 18446744073709551616 * ((p.totp_x : Int) + 1) := by ring
      rw [hsplit, Int.add_mul_emod_self_left]
    have hfin := m4.trans m5
    rw [Int.ModEq] at hfin
    rw [← add_assoc] at hfin
    exact hfin
  rw [← key]
  exact (Int.toNat_natCast _).symm

/-- Witness for `c7_expiry_formula` at `T0 = 0`, `X = 30`, `now = 1000`,
`offset = 0` (step index 33, stored expiry 989). -/
theorem c7_expiry_formula_witness :
    (0 < 30) ∧
    cacheEntryExpiry ⟨0, 30, 1000, 0, 1, 8, []⟩ =
      some (((((time_step_index ⟨0, 30, 1000, 0, 1, 8, []⟩ : Int) - 1) * (30 : Int)
              + (30 : Int) - 1) % ((U64 : Nat) : Int)).toNat) :=
  ⟨by decide, c7_expiry_formula ⟨0, 30, 1000, 0, 1, 8, []⟩ (by decide)⟩

/-- C8 (counterexample): the string `"A{"` is accepted by
`totp_base32_verify` (returning 1) although it does not satisfy the
claimed acceptance condition — `{` is not one of the claimed valid
symbols, but `base32_map[0x7B] == 26`. -/
theorem c8_brace_breaks_claimed_condition :
    totp_base32_verify [65, 123] = .ok 1 ∧ base32_spec_claimed [65, 123] = false := by
  decide

/-- C8 (amended): for byte strings, `totp_base32_verify` accepts exactly
when every character of the non-padded prefix is in the code's character
set (the claimed set plus `{`), the pad run (if any) consists of `=`,
starts at `p` with `p % 8 ≥ 2` and completes the 8-character block, and
`datlen % 8 ∈ {0, 2, 4, 5, 7}`; on acceptance it returns exactly
`datlen * 5 / 8`.  (Bytes `≥ 0x80` drive the signed table index out of
bounds — undefined behaviour — modelled here as a distinct
non-accepting outcome.) -/
theorem c8_acceptance_characterisation (s : List Nat) (n : Nat) (h : ∀ c ∈ s, c < 256) :
    totp_base32_verify s = .ok n ↔
      (base32_spec_ok s = true ∧ n = (specDat s).length * 5 / 8) :=
  verify_ok_iff s n h

/-- Witness for `c8_acceptance_characterisation` at `"AB======"` and
`n = 1`. -/
theorem c8_acceptance_characterisation_witness :
    (∀ c ∈ [65, 66, 61, 61, 61, 61, 61, 61], c < 256) ∧
    (totp_base32_verify [65, 66, 61, 61, 61, 61, 61, 61] = .ok 1 ↔
      (base32_spec_ok [65, 66, 61, 61, 61, 61, 61, 61] = true ∧
        1 = (specDat [65, 66, 61, 61, 61, 61, 61, 61]).length * 5 / 8)) :=
  ⟨by decide, c8_acceptance_characterisation [65, 66, 61, 61, 61, 61, 61, 61] 1 (by decide)⟩

/-- C9: for every byte string `s` accepted by `totp_base32_verify` with
returned length `n` and every destination buffer of capacity at least
`n`, `totp_base32_decode` succeeds and writes exactly `n` bytes. -/
theorem c9_decode_writes_verified_length (s : List Nat) (n dstlen : Nat)
    (h : ∀ c ∈ s, c < 256) (hok : totp_base32_verify s = .ok n) (hcap : n ≤ dstlen) :
    (totp_base32_decode dstlen s).outLength = some n :=
  base32_decode_length s n dstlen h hok hcap

/-- Witness for `c9_decode_writes_verified_length` at `"MZXW6==="`
(which decodes to the three bytes of `"foo"`). -/
theorem c9_decode_writes_verified_length_witness :
    (∀ c ∈ [77, 90, 88, 87, 54, 61, 61, 61], c < 256) ∧
    totp_base32_verify [77, 90, 88, 87, 54, 61, 61, 61] = .ok 3 ∧ 3 ≤ 20 ∧
    (totp_base32_decode 20 [77, 90, 88, 87, 54, 61, 61, 61]).outLength = some 3 :=
  ⟨by decide, by decide, by decide,
    c9_decode_writes_verified_length [77, 90, 88, 87, 54, 61, 61, 61] 3 20
      (by decide) (by decide) (by decide)⟩

end RlmTotp
